import Mathlib

/-!
Shallow embedding of neuron_minimal_io (main.py): a minimal serial client
for Dygma keyboards.  Strings are modelled as List Char, byte strings as
List Nat (each byte < 256 on the wire; the ascii codec only accepts
values < 128).  The fallible codec operations return Option.
-/

/-- Python str.isspace code points (the set str.strip removes from both
ends): ASCII 0x09-0x0D, 0x1C-0x1F, 0x20, plus the Unicode whitespace
code points. -/
def pyWhitespace : List Nat :=
  [0x09, 0x0A, 0x0B, 0x0C, 0x0D, 0x1C, 0x1D, 0x1E, 0x1F, 0x20,
   0x85, 0xA0, 0x1680, 0x2000, 0x2001, 0x2002, 0x2003, 0x2004, 0x2005,
   0x2006, 0x2007, 0x2008, 0x2009, 0x200A, 0x2028, 0x2029, 0x202F, 0x205F, 0x3000]

def pyIsSpace (c : Char) : Bool :=
  pyWhitespace.contains c.toNat

/-- Python str.strip(): remove leading and trailing whitespace. -/
def pyStrip (s : List Char) : List Char :=
  (s.dropWhile pyIsSpace).rdropWhile pyIsSpace

/-- str.encode("ascii"): succeeds iff every code point is below 128. -/
def asciiEncode (s : List Char) : Option (List Nat) :=
  if s.all (fun c => c.toNat < 128) then some (s.map Char.toNat) else none

/-- bytes.decode("ascii"): succeeds iff every byte is below 128. -/
def asciiDecode (bs : List Nat) : Option (List Char) :=
  if bs.all (fun b => b < 128) then some (bs.map Char.ofNat) else none

/-- CHARSET = "ascii" is hard-wired into asciiEncode / asciiDecode above. -/
def END_OF_CONTENT : List Char := ['.']

/-- main.py line 66: output_line.decode(CHARSET).strip() -/
def ndeserialize (output_line : List Nat) : Option (List Char) :=
  (asciiDecode output_line).map pyStrip

/-- main.py line 71: f-string command.strip() followed by a newline, encoded. -/
def nserialize (command : List Char) : Option (List Nat) :=
  asciiEncode (pyStrip command ++ ['\n'])

/-- Identifier constants from main.py lines 35-44. -/
def DYGMA_VENDOR_ID_RAISE : Nat := 0x1209

def DYGMA_VENDOR_ID_DEFY : Nat := 0x35EF

def DYGMA_VENDOR_ID_RAISE2 : Nat := 0x35EF

def RAISE_ANSI_PRODUCT_ID : Nat := 0x2201

def RAISE_ISO_PRODUCT_ID : Nat := 0x2201

def DEFY_WIRED_PRODUCT_ID : Nat := 0x0010

def DEFY_WIRELESS_PRODUCT_ID : Nat := 0x0012

def RAISE2_ANSI_PRODUCT_ID : Nat := 0x0021

def RAISE2_ISO_PRODUCT_ID : Nat := 0x0023

/-- The allow-list set literal of main.py lines 46-53, with its entries as
written in the source (the set collapses duplicate pairs, which the list
membership test below also does). -/
def LIST_PORT_PID_VID_PAIRS : List (Nat × Nat) :=
  [(DYGMA_VENDOR_ID_RAISE, RAISE_ANSI_PRODUCT_ID),
   (DYGMA_VENDOR_ID_RAISE, RAISE_ISO_PRODUCT_ID),
   (DYGMA_VENDOR_ID_RAISE2, RAISE2_ANSI_PRODUCT_ID),
   (DYGMA_VENDOR_ID_RAISE2, RAISE2_ISO_PRODUCT_ID),
   (DYGMA_VENDOR_ID_DEFY, RAISE2_ANSI_PRODUCT_ID),
   (DYGMA_VENDOR_ID_DEFY, RAISE2_ISO_PRODUCT_ID)]

/-- One OS-enumerated serial device descriptor (pyserial ListPortInfo). -/
structure ListPortInfo where
  vid : Nat
  pid : Nat
  device : String
deriving DecidableEq, Repr

/-- main.py lines 102-107: keep the enumerated ports whose (vid, pid)
pair is in the allow-list, preserving enumeration order.  The OS port
enumeration is the explicit input. -/
def find_ports_with_dygma_products (ports : List ListPortInfo) : List ListPortInfo :=
  ports.filter (fun port_info => decide ((port_info.vid, port_info.pid) ∈ LIST_PORT_PID_VID_PAIRS))

/-- Python truthiness test of main.py line 86: "if not port" is true for
None and for the empty string. -/
def notPort : Option String → Bool
  | none => true
  | some s => s.isEmpty

/-- main.py lines 85-93, NeuronChat.__init__ reduced to the port it binds:
when the port argument is falsy, discovery runs and must find exactly one
candidate, whose device path is bound; otherwise a RuntimeError is raised.
A given truthy port is bound unchanged. -/
def NeuronChat.mkPort (port : Option String) (enumerated : List ListPortInfo) :
    Except String String :=
  if notPort port then
    match find_ports_with_dygma_products enumerated with
    | [port_info] => Except.ok port_info.device
    | _ => Except.error "Could not find a connected Dygma keyboard"
  else
    Except.ok (port.getD "")

/-- How one run of the NeuronIO.io read loop ends, given the finite list
of byte lines the device will produce: the sentinel was seen (done), a
line failed to decode (errored), or the device lines ran out, which in
the real program is a readline blocked forever (blocked). -/
inductive Outcome
  | done
  | errored
  | abandoned
  | blocked
deriving DecidableEq, Repr

/-- main.py lines 74-79, the while loop of NeuronIO.io consumed to the
end: the device produces the given byte lines in order; each is decoded
with ndeserialize; the loop stops at the first line whose decoded content
equals END_OF_CONTENT, yields every decoded line before it, and aborts at
the first line that fails to decode. -/
def ioRun : List (List Nat) → List (List Char) × Outcome
  | [] => ([], Outcome.blocked)
  | line :: rest =>
    match ndeserialize line with
    | none => ([], Outcome.errored)
    | some content =>
      if content = END_OF_CONTENT then ([], Outcome.done)
      else
        let p := ioRun rest
        (content :: p.1, p.2)

/-- A device byte line and the decoded content ndeserialize extracts from
it, when that content is not the sentinel. -/
def decodesTo (line : List Nat) (content : List Char) : Prop :=
  ndeserialize line = some content ∧ content ≠ END_OF_CONTENT

/-- The head of a stripped string is never whitespace. -/
theorem pyStrip_head_not (s : List Char) (h : pyStrip s ≠ []) :
    pyIsSpace ((pyStrip s).head h) = false := by
  have hpre : pyStrip s <+: s.dropWhile pyIsSpace := List.rdropWhile_prefix _ _
  rw [hpre.head h]
  exact List.head_dropWhile_not pyIsSpace s _

/-- When a stripped string starts with a, the character a is not
whitespace. -/
theorem pyStrip_cons_not_space (s : List Char) (a : Char) (t : List Char)
    (h : pyStrip s = a :: t) : pyIsSpace a = false := by
  have hne : pyStrip s ≠ [] := by rw [h]; simp
  have h1 := pyStrip_head_not s hne
  have h2 : (pyStrip s).head hne = a := by
    have h3 : (pyStrip s).head? = some a := by rw [h]; rfl
    rw [List.head?_eq_head hne] at h3
    exact Option.some.inj h3
  rwa [h2] at h1

/-- The last element of a stripped string is never whitespace. -/
theorem pyStrip_getLast_not (s : List Char) (h : pyStrip s ≠ []) :
    pyIsSpace ((pyStrip s).getLast h) = false := by
  have := List.rdropWhile_last_not pyIsSpace (s.dropWhile pyIsSpace) h
  simpa using this

/-- Stripping a stripped string removes nothing on the left. -/
theorem dropWhile_pyStrip (s : List Char) :
    (pyStrip s).dropWhile pyIsSpace = pyStrip s := by
  cases h : pyStrip s with
  | nil => simp
  | cons a t =>
    have ha : pyIsSpace a = false := pyStrip_cons_not_space s a t h
    rw [List.dropWhile_cons, ha]
    simp

/-- Stripping a stripped string removes nothing on the right. -/
theorem rdropWhile_pyStrip (s : List Char) :
    (pyStrip s).rdropWhile pyIsSpace = pyStrip s :=
  List.rdropWhile_idempotent pyIsSpace (s.dropWhile pyIsSpace)

/-- pyStrip is idempotent. -/
theorem pyStrip_idem (s : List Char) : pyStrip (pyStrip s) = pyStrip s := by
  show ((pyStrip s).dropWhile pyIsSpace).rdropWhile pyIsSpace = pyStrip s
  rw [dropWhile_pyStrip, rdropWhile_pyStrip]

/-- Appending a newline to a stripped string and stripping again gives
the stripped string back. -/
theorem pyStrip_strip_append_newline (s : List Char) :
    pyStrip (pyStrip s ++ ['\n']) = pyStrip s := by
  cases h : pyStrip s with
  | nil =>
    show pyStrip ([] ++ ['\n']) = []
    decide
  | cons a t =>
    have ha : pyIsSpace a = false := pyStrip_cons_not_space s a t h
    show ((((a :: t) ++ ['\n']).dropWhile pyIsSpace).rdropWhile pyIsSpace) = a :: t
    rw [List.cons_append, List.dropWhile_cons, ha]
    simp only [Bool.false_eq_true, if_false]
    rw [← List.cons_append, List.rdropWhile_concat_pos _ _ _ (by decide), ← h,
      rdropWhile_pyStrip]

/-- Every character of the stripped string occurs in the original. -/
theorem pyStrip_subset (s : List Char) : pyStrip s ⊆ s := by
  intro x hx
  have h1 : pyStrip s ⊆ s.dropWhile pyIsSpace :=
    (List.rdropWhile_prefix pyIsSpace _).sublist.subset
  have h2 : s.dropWhile pyIsSpace ⊆ s :=
    (List.dropWhile_suffix pyIsSpace).sublist.subset
  exact h2 (h1 hx)

/-- Encoding an all-ASCII string succeeds and maps each character to its
code point. -/
theorem asciiEncode_of_lt (s : List Char) (h : ∀ c ∈ s, c.toNat < 128) :
    asciiEncode s = some (s.map Char.toNat) := by
  unfold asciiEncode
  rw [if_pos]
  rw [List.all_eq_true]
  intro c hc
  exact decide_eq_true (h c hc)

/-- Decoding all-ASCII bytes succeeds and maps each byte to its character. -/
theorem asciiDecode_of_lt (bs : List Nat) (h : ∀ b ∈ bs, b < 128) :
    asciiDecode bs = some (bs.map Char.ofNat) := by
  unfold asciiDecode
  rw [if_pos]
  rw [List.all_eq_true]
  intro b hb
  exact decide_eq_true (h b hb)

/-- Decoding undoes encoding, character by character. -/
theorem map_ofNat_map_toNat (s : List Char) :
    (s.map Char.toNat).map Char.ofNat = s := by
  rw [List.map_map]
  simp [Function.comp_def, Char.ofNat_toNat]

/-- Spec-side allow-list for the corrected claim C1: the three distinct
pairs that actually occur in LIST_PORT_PID_VID_PAIRS. -/
def amended_allow_list : List (Nat × Nat) :=
  [(0x1209, 0x2201), (0x35EF, 0x0021), (0x35EF, 0x0023)]

/-- Claim C1 (counterexample): the claim lists (0x35EF, 0x2201) among the
allowed pairs, but a device carrying exactly that pair is rejected by
find_ports_with_dygma_products, and the pair is not in the source
allow-list at all. -/
theorem C1_counterexample_pair_35EF_2201_rejected :
    find_ports_with_dygma_products [⟨0x35EF, 0x2201, "/dev/ttyACM0"⟩] = [] ∧
      ((0x35EF, 0x2201) ∈ LIST_PORT_PID_VID_PAIRS → False) := by
  decide

/-- Claim C1 (amended): find_ports_with_dygma_products returns exactly the
subset of enumerated devices whose (vid, pid) pair is one of the THREE
pairs (0x1209, 0x2201), (0x35EF, 0x0021), (0x35EF, 0x0023), in input
order: it equals the order-preserving filter by membership in that
three-pair allow-list. -/
theorem C1_find_ports_eq_filter_by_three_pair_allow_list (ports : List ListPortInfo) :
    find_ports_with_dygma_products ports =
      ports.filter (fun port_info => decide ((port_info.vid, port_info.pid) ∈ amended_allow_list)) := by
  unfold find_ports_with_dygma_products
  refine List.filter_congr ?_
  intro a _
  simp only [decide_eq_decide, LIST_PORT_PID_VID_PAIRS, amended_allow_list,
    DYGMA_VENDOR_ID_RAISE, DYGMA_VENDOR_ID_DEFY, DYGMA_VENDOR_ID_RAISE2,
    RAISE_ANSI_PRODUCT_ID, RAISE_ISO_PRODUCT_ID,
    RAISE2_ANSI_PRODUCT_ID, RAISE2_ISO_PRODUCT_ID,
    List.mem_cons, List.not_mem_nil, or_false]
  tauto

/-- Claim C2: when the device produces byte lines that decode to the
non-sentinel contents ds followed by a line that decodes to the sentinel,
the NeuronIO.io loop yields exactly ds, in order, and stops normally
without yielding the sentinel; with ds = [] the yielded sequence is
empty. -/
theorem C2_io_yields_lines_before_sentinel (ls : List (List Nat)) (ds : List (List Char))
    (lsent : List Nat) (h : List.Forall₂ decodesTo ls ds)
    (hsent : ndeserialize lsent = some END_OF_CONTENT) :
    ioRun (ls ++ [lsent]) = (ds, Outcome.done) := by
  induction h with
  | nil => simp [ioRun, hsent]
  | cons h1 h2 ih => simp [ioRun, h1.1, h1.2, ih]

/-- Claim C2 witness: a device sending "1\r\n", "2", ".\r\n" makes the
loop yield exactly the decoded lines "1" and "2" and then stop. -/
theorem C2_witness :
    ioRun ([[0x31, 0x0D, 0x0A], [0x32]] ++ [[0x2E, 0x0D, 0x0A]]) =
      ([['1'], ['2']], Outcome.done) :=
  C2_io_yields_lines_before_sentinel [[0x31, 0x0D, 0x0A], [0x32]] [['1'], ['2']]
    [0x2E, 0x0D, 0x0A]
    (List.Forall₂.cons ⟨by decide, by decide⟩
      (List.Forall₂.cons ⟨by decide, by decide⟩ List.Forall₂.nil))
    (by decide)

/-- Claim C3: for an ASCII command without embedded newline, serializing
and then deserializing gives back the command stripped of surrounding
whitespace. -/
theorem C3_roundtrip_strips (c : List Char) (_hnl : ('\n' : Char) ∉ c)
    (hascii : ∀ ch ∈ c, ch.toNat < 128) :
    (nserialize c).bind ndeserialize = some (pyStrip c) := by
  have hall : ∀ ch ∈ pyStrip c ++ ['\n'], ch.toNat < 128 := by
    intro ch hch
    rcases List.mem_append.mp hch with h1 | h1
    · exact hascii ch (pyStrip_subset c h1)
    · simp only [List.mem_singleton] at h1
      subst h1
      decide
  rw [show nserialize c = asciiEncode (pyStrip c ++ ['\n']) from rfl,
    asciiEncode_of_lt _ hall, Option.some_bind]
  show (asciiDecode ((pyStrip c ++ ['\n']).map Char.toNat)).map pyStrip = _
  rw [asciiDecode_of_lt _ (by
    intro b hb
    rcases List.mem_map.mp hb with ⟨ch, hch, rfl⟩
    exact hall ch hch)]
  rw [map_ofNat_map_toNat, Option.map_some', pyStrip_strip_append_newline]

/-- Claim C3 witness: the round trip on " hi " gives "hi". -/
theorem C3_witness :
    (('\n' : Char) ∉ [' ', 'h', 'i', ' ']) ∧
      (nserialize [' ', 'h', 'i', ' ']).bind ndeserialize = some ['h', 'i'] :=
  ⟨by decide,
    (C3_roundtrip_strips [' ', 'h', 'i', ' '] (by decide) (by decide)).trans (by decide)⟩

/-- Claim C8: whenever nserialize produces bytes, they end in the newline
byte 10, the byte before that last one is never 10, and when the command
has no embedded newline the terminator is the only newline byte in the
output. -/
theorem C8_nserialize_exactly_one_trailing_newline (c : List Char) (bs : List Nat)
    (h : nserialize c = some bs) :
    bs.getLast? = some 10 ∧ bs.dropLast.getLast? ≠ some 10 ∧
      (('\n' : Char) ∉ c → 10 ∉ bs.dropLast) := by
  have hbs : bs = (pyStrip c ++ ['\n']).map Char.toNat := by
    unfold nserialize asciiEncode at h
    split at h
    · exact (Option.some.inj h).symm
    · exact absurd h (by simp)
  have hsplit : bs = (pyStrip c).map Char.toNat ++ [10] := by
    rw [hbs, List.map_append]
    rfl
  refine ⟨?_, ?_, ?_⟩
  · rw [hsplit]
    exact List.getLast?_concat _
  · rw [hsplit, List.dropLast_concat, List.getLast?_map]
    cases hnil : pyStrip c with
    | nil => simp
    | cons a t =>
      intro habs
      have hne' : a :: t ≠ [] := by simp
      rw [List.getLast?_eq_getLast _ hne', Option.map_some'] at habs
      have heq : Char.toNat ((a :: t).getLast hne') = 10 := Option.some.inj habs
      have hch : (a :: t).getLast hne' = '\n' := by
        have := congrArg Char.ofNat heq
        rwa [Char.ofNat_toNat] at this
      have hne : pyStrip c ≠ [] := by rw [hnil]; simp
      have hlast := pyStrip_getLast_not c hne
      have e1 : (pyStrip c).getLast? = some ((pyStrip c).getLast hne) :=
        List.getLast?_eq_getLast _ hne
      have e2 : (pyStrip c).getLast? = some ((a :: t).getLast hne') := by
        rw [hnil]
        exact List.getLast?_eq_getLast _ hne'
      have e3 : (pyStrip c).getLast hne = (a :: t).getLast hne' :=
        Option.some.inj (e1.symm.trans e2)
      rw [e3, hch] at hlast
      exact absurd hlast (by decide)
  · intro hnl habs
    rw [hsplit, List.dropLast_concat] at habs
    rcases List.mem_map.mp habs with ⟨ch, hch, hchn⟩
    have : ch = '\n' := by
      have := congrArg Char.ofNat hchn
      rwa [Char.ofNat_toNat] at this
    subst this
    exact hnl (pyStrip_subset c hch)

/-- Claim C8 witness: serializing "cmd  " gives the bytes of "cmd"
followed by exactly one newline byte. -/
theorem C8_witness :
    nserialize ['c', 'm', 'd', ' ', ' '] = some [99, 109, 100, 10] ∧
      ([99, 109, 100, 10].getLast? = some 10 ∧
        ([99, 109, 100, 10].dropLast.getLast? = some 10 → False) ∧
        (('\n' : Char) ∉ ['c', 'm', 'd', ' ', ' '] → 10 ∉ [99, 109, 100, 10].dropLast)) :=
  ⟨by decide, C8_nserialize_exactly_one_trailing_newline ['c', 'm', 'd', ' ', ' ']
    [99, 109, 100, 10] (by decide)⟩

/-- Claim C6: ndeserialize fails exactly when some received byte is above
0x7F, and such a failure aborts the io loop: the decoded lines received
before the bad line are yielded, nothing at or after the bad line is, and
the run ends in the errored outcome that propagates to the caller. -/
theorem C6_decode_error_iff_high_byte_and_aborts :
    (∀ bs : List Nat, ndeserialize bs = none ↔ ∃ b ∈ bs, 0x7F < b) ∧
      (∀ ls ds bad rest, List.Forall₂ decodesTo ls ds → ndeserialize bad = none →
        ioRun (ls ++ bad :: rest) = (ds, Outcome.errored)) := by
  constructor
  · intro bs
    unfold ndeserialize asciiDecode
    split
    next hall =>
      simp only [Option.map_some']
      constructor
      · intro habs
        exact absurd habs (by simp)
      · rintro ⟨b, hb, hgt⟩
        rw [List.all_eq_true] at hall
        have := of_decide_eq_true (hall b hb)
        omega
    next hall =>
      simp only [Option.map_none']
      constructor
      · intro _
        rw [List.all_eq_true] at hall
        push_neg at hall
        obtain ⟨b, hb, hlt⟩ := hall
        exact ⟨b, hb, by simpa using hlt⟩
      · intro _
        trivial
  · intro ls ds bad rest h hbad
    induction h with
    | nil => simp [ioRun, hbad]
    | cons h1 h2 ih => simp [ioRun, h1.1, h1.2, ih]

/-- Claim C6 witness: the byte 0xC3 makes ndeserialize fail, and a device
line containing it aborts the exchange right after the earlier good line
was yielded, with nothing from the rest surfacing. -/
theorem C6_witness :
    ndeserialize [0x31, 0xC3] = none ∧
      ioRun [[0x31], [0x31, 0xC3], [0x32]] = ([['1']], Outcome.errored) :=
  ⟨(C6_decode_error_iff_high_byte_and_aborts.1 [0x31, 0xC3]).mpr ⟨0xC3, by decide, by decide⟩,
    C6_decode_error_iff_high_byte_and_aborts.2 [[0x31]] [['1']] [0x31, 0xC3] [[0x32]]
      (List.Forall₂.cons ⟨by decide, by decide⟩ List.Forall₂.nil) (by decide)⟩

/-- Whatever ndeserialize produces is already stripped: stripping it
again changes nothing. -/
theorem ndeserialize_stripped (line : List Nat) (content : List Char)
    (h : ndeserialize line = some content) : pyStrip content = content := by
  unfold ndeserialize at h
  cases hd : asciiDecode line with
  | none => rw [hd] at h; simp at h
  | some d =>
    rw [hd, Option.map_some'] at h
    have hc := Option.some.inj h
    rw [← hc, pyStrip_idem]

/-- Claim C9: ndeserialize strips whitespace from both ends, so the wire
line "  .\r\n" decodes to the bare sentinel and stops the exchange at
once, the wire line "  ab " decodes with its leading blanks removed, and
every line the loop ever yields is strip-fixed (no leading or trailing
whitespace reaches the consumer). -/
theorem C9_strip_both_ends_sentinel_and_yields :
    ndeserialize [0x20, 0x20, 0x2E, 0x0D, 0x0A] = some END_OF_CONTENT ∧
      (∀ rest, ioRun ([0x20, 0x20, 0x2E, 0x0D, 0x0A] :: rest) = ([], Outcome.done)) ∧
      ndeserialize [0x20, 0x20, 0x61, 0x62, 0x20] = some ['a', 'b'] ∧
      (∀ lines, ((ioRun lines).1.all fun content => pyStrip content == content) = true) := by
  refine ⟨by decide, ?_, by decide, ?_⟩
  · intro rest
    have hsent : ndeserialize [0x20, 0x20, 0x2E, 0x0D, 0x0A] = some END_OF_CONTENT := by
      decide
    simp [ioRun, hsent]
  · intro lines
    induction lines with
    | nil => rfl
    | cons line rest ih =>
      cases h : ndeserialize line with
      | none => simp [ioRun, h]
      | some content =>
        by_cases hc : content = END_OF_CONTENT
        · simp [ioRun, h, hc]
        · have hs := ndeserialize_stripped line content h
          simp [ioRun, h, hc, ih, hs]

/-- Shared case analysis of the discovery branch of NeuronChat.__init__:
exactly one candidate binds its device path, any other count raises. -/
theorem mkPort_discovery_cases (enumerated : List ListPortInfo) :
    (∀ p, find_ports_with_dygma_products enumerated = [p] →
      NeuronChat.mkPort none enumerated = Except.ok p.device) ∧
    ((find_ports_with_dygma_products enumerated).length ≠ 1 →
      NeuronChat.mkPort none enumerated =
        Except.error "Could not find a connected Dygma keyboard") ∧
    ((∃ e, NeuronChat.mkPort none enumerated = Except.error e) →
      (find_ports_with_dygma_products enumerated).length ≠ 1) := by
  cases hfind : find_ports_with_dygma_products enumerated with
  | nil =>
    refine ⟨?_, ?_, ?_⟩
    · intro p hp
      cases hp
    · intro _
      simp [NeuronChat.mkPort, notPort, hfind]
    · intro _
      simp
  | cons p tail =>
    cases tail with
    | nil =>
      refine ⟨?_, ?_, ?_⟩
      · intro q hq
        injection hq with h1 _
        subst h1
        simp [NeuronChat.mkPort, notPort, hfind]
      · intro habs
        simp at habs
      · rintro ⟨e, he⟩
        rw [show NeuronChat.mkPort none enumerated = Except.ok p.device by
          simp [NeuronChat.mkPort, notPort, hfind]] at he
        cases he
    | cons q tail2 =>
      refine ⟨?_, ?_, ?_⟩
      · intro r hr
        cases hr
      · intro _
        simp [NeuronChat.mkPort, notPort, hfind]
      · intro _
        simp

/-- Claim C7: constructed without a port, NeuronChat raises exactly when
the number of discovered candidates differs from one, and with exactly
one candidate it binds that candidate's device path. -/
theorem C7_no_port_errors_iff_not_exactly_one (enumerated : List ListPortInfo) :
    ((∃ e, NeuronChat.mkPort none enumerated = Except.error e) ↔
      (find_ports_with_dygma_products enumerated).length ≠ 1) ∧
    (∀ p, find_ports_with_dygma_products enumerated = [p] →
      NeuronChat.mkPort none enumerated = Except.ok p.device) := by
  obtain ⟨h1, h2, h3⟩ := mkPort_discovery_cases enumerated
  refine ⟨⟨h3, ?_⟩, h1⟩
  intro hlen
  exact ⟨"Could not find a connected Dygma keyboard", h2 hlen⟩

/-- Claim C7 witness: with a single enumerated Raise2 ANSI keyboard the
constructor binds its device path, and with no devices it errors. -/
theorem C7_witness :
    NeuronChat.mkPort none [⟨0x35EF, 0x0021, "/dev/ttyACM0"⟩] = Except.ok "/dev/ttyACM0" ∧
      (∃ e, NeuronChat.mkPort none [] = Except.error e) :=
  ⟨(C7_no_port_errors_iff_not_exactly_one [⟨0x35EF, 0x0021, "/dev/ttyACM0"⟩]).2
      ⟨0x35EF, 0x0021, "/dev/ttyACM0"⟩ (by decide),
    (C7_no_port_errors_iff_not_exactly_one []).1.mpr (by decide)⟩

/-- Claim C10: passing the empty string as the port behaves exactly like
passing no port at all, because the constructor tests truthiness; in
particular it raises whenever the candidate count is not one. -/
theorem C10_empty_port_is_falsy (enumerated : List ListPortInfo) :
    NeuronChat.mkPort (some "") enumerated = NeuronChat.mkPort none enumerated ∧
      ((find_ports_with_dygma_products enumerated).length ≠ 1 →
        ∃ e, NeuronChat.mkPort (some "") enumerated = Except.error e) := by
  obtain ⟨_, h2, _⟩ := mkPort_discovery_cases enumerated
  refine ⟨rfl, ?_⟩
  intro hlen
  exact ⟨"Could not find a connected Dygma keyboard", by rw [show NeuronChat.mkPort
    (some "") enumerated = NeuronChat.mkPort none enumerated from rfl]; exact h2 hlen⟩

/-- Claim C10 witness: with an empty enumeration, the empty-string port
triggers discovery and raises, exactly like the none port. -/
theorem C10_witness :
    NeuronChat.mkPort (some "") [] = NeuronChat.mkPort none [] ∧
      (∃ e, NeuronChat.mkPort (some "") [] = Except.error e) :=
  ⟨(C10_empty_port_is_falsy []).1, (C10_empty_port_is_falsy []).2 (by decide)⟩

/-- Observable actions of one NeuronIO.io exchange, in program order:
the Serial context manager is entered (opened), the serialized command
is written (wrote), one device line is read (readLine), one decoded line
is handed to the consumer (yielded), the context manager is exited and
the connection released (closed). -/
inductive Ev
  | opened
  | wrote (bs : List Nat)
  | readLine (bs : List Nat)
  | yielded (content : List Char)
  | closed
deriving DecidableEq, Repr

/-- The while loop of NeuronIO.io as an event trace.  The budget is the
number of yields the consumer still accepts: none means the consumer
drains the generator; some k means the consumer abandons it after k more
yields, which closes the suspended generator at its yield and runs the
with-statement exit there (the closed event).  Exhausting the device
lines models a readline that blocks forever, so that trace simply stops
without a closed event and the outcome is blocked. -/
def ioLoop : List (List Nat) → Option Nat → List Ev × Outcome
  | [], _ => ([], Outcome.blocked)
  | line :: rest, budget =>
    match ndeserialize line with
    | none => ([Ev.readLine line, Ev.closed], Outcome.errored)
    | some content =>
      if content = END_OF_CONTENT then ([Ev.readLine line, Ev.closed], Outcome.done)
      else
        match budget with
        | some 0 => ([Ev.closed], Outcome.abandoned)
        | some 1 => ([Ev.readLine line, Ev.yielded content, Ev.closed], Outcome.abandoned)
        | some (k + 2) =>
          let p := ioLoop rest (some (k + 1))
          (Ev.readLine line :: Ev.yielded content :: p.1, p.2)
        | none =>
          let p := ioLoop rest none
          (Ev.readLine line :: Ev.yielded content :: p.1, p.2)

/-- One full call of NeuronIO.io as an event trace.  A budget of some 0
is a consumer that never starts the generator, so its body (and the with
statement) never runs and the trace is empty.  Otherwise the generator
body runs from its start: the with statement opens the connection, the
command is serialized and written (a command that cannot be encoded
raises inside the with statement, which still closes the connection),
and the read loop proceeds under the remaining budget. -/
def ioEvents (port_lines : List (List Nat)) (command : List Char) (budget : Option Nat) :
    List Ev × Outcome :=
  match budget with
  | some 0 => ([], Outcome.abandoned)
  | _ =>
    match nserialize command with
    | none => ([Ev.opened, Ev.closed], Outcome.errored)
    | some bs =>
      let p := ioLoop port_lines budget
      (Ev.opened :: Ev.wrote bs :: p.1, p.2)

/-- Unless the device makes the loop block forever, every loop trace ends
by closing the connection. -/
theorem ioLoop_ends_closed (lines : List (List Nat)) :
    ∀ budget, (ioLoop lines budget).2 ≠ Outcome.blocked →
      ∃ pre, (ioLoop lines budget).1 = pre ++ [Ev.closed] := by
  induction lines with
  | nil =>
    intro budget h
    exact absurd rfl h
  | cons line rest ih =>
    intro budget h
    cases hd : ndeserialize line with
    | none => exact ⟨[Ev.readLine line], by simp [ioLoop, hd]⟩
    | some content =>
      by_cases hc : content = END_OF_CONTENT
      · exact ⟨[Ev.readLine line], by simp [ioLoop, hd, hc]⟩
      · match budget with
        | some 0 => exact ⟨[], by simp [ioLoop, hd, hc]⟩
        | some 1 => exact ⟨[Ev.readLine line, Ev.yielded content], by simp [ioLoop, hd, hc]⟩
        | some (k + 2) =>
          have h2 : (ioLoop rest (some (k + 1))).2 ≠ Outcome.blocked := by
            simpa [ioLoop, hd, hc] using h
          obtain ⟨pre, hpre⟩ := ih (some (k + 1)) h2
          exact ⟨Ev.readLine line :: Ev.yielded content :: pre, by
            simp [ioLoop, hd, hc, hpre]⟩
        | none =>
          have h2 : (ioLoop rest none).2 ≠ Outcome.blocked := by
            simpa [ioLoop, hd, hc] using h
          obtain ⟨pre, hpre⟩ := ih none h2
          exact ⟨Ev.readLine line :: Ev.yielded content :: pre, by
            simp [ioLoop, hd, hc, hpre]⟩

/-- Claim C4: in every exchange whose generator body starts, the trace
begins by opening the connection, and on every exit path that exists
(normal completion at the sentinel, consumer abandonment after any
number of yields, and decode or encode error) the trace ends by closing
it; only a device that never supplies a line leaves the loop blocked,
which is not an exit.  An untouched generator (budget some 0) has an
empty trace: the connection is never opened at all. -/
theorem C4_connection_scoped_to_exchange (port_lines : List (List Nat))
    (command : List Char) (budget : Option Nat) :
    ((ioEvents port_lines command budget).1.head? = some Ev.opened ∨
      (ioEvents port_lines command budget).1 = []) ∧
    ((ioEvents port_lines command budget).2 ≠ Outcome.blocked →
      Ev.opened ∈ (ioEvents port_lines command budget).1 →
      ∃ pre, (ioEvents port_lines command budget).1 = pre ++ [Ev.closed]) := by
  match budget with
  | some 0 => exact ⟨Or.inr rfl, fun _ habs => absurd habs (by simp [ioEvents])⟩
  | some (n + 1) =>
    cases hs : nserialize command with
    | none =>
      refine ⟨Or.inl (by simp [ioEvents, hs]), fun _ _ => ⟨[Ev.opened], by simp [ioEvents, hs]⟩⟩
    | some bs =>
      refine ⟨Or.inl (by simp [ioEvents, hs]), fun h _ => ?_⟩
      have h2 : (ioLoop port_lines (some (n + 1))).2 ≠ Outcome.blocked := by
        simpa [ioEvents, hs] using h
      obtain ⟨pre, hpre⟩ := ioLoop_ends_closed port_lines (some (n + 1)) h2
      exact ⟨Ev.opened :: Ev.wrote bs :: pre, by simp [ioEvents, hs, hpre]⟩
  | none =>
    cases hs : nserialize command with
    | none =>
      refine ⟨Or.inl (by simp [ioEvents, hs]), fun _ _ => ⟨[Ev.opened], by simp [ioEvents, hs]⟩⟩
    | some bs =>
      refine ⟨Or.inl (by simp [ioEvents, hs]), fun h _ => ?_⟩
      have h2 : (ioLoop port_lines none).2 ≠ Outcome.blocked := by
        simpa [ioEvents, hs] using h
      obtain ⟨pre, hpre⟩ := ioLoop_ends_closed port_lines none h2
      exact ⟨Ev.opened :: Ev.wrote bs :: pre, by simp [ioEvents, hs, hpre]⟩

/-- Claim C4 witness: a drained exchange against a device that sends the
bare sentinel opens, and its trace ends with the closing of the
connection. -/
theorem C4_witness :
    ∃ pre, (ioEvents [[0x2E]] ['v'] none).1 = pre ++ [Ev.closed] :=
  (C4_connection_scoped_to_exchange [[0x2E]] ['v'] none).2 (by decide) (by decide)

/-- The lines an event trace hands to the consumer, in trace order. -/
def yieldsOf (evs : List Ev) : List (List Char) :=
  evs.filterMap fun e =>
    match e with
    | Ev.yielded content => some content
    | _ => none

/-- The decoded contents of the successful reads of an event trace, in
trace order. -/
def decodedReadsOf (evs : List Ev) : List (List Char) :=
  evs.filterMap fun e =>
    match e with
    | Ev.readLine line => ndeserialize line
    | _ => none

def isWriteEv : Ev → Bool
  | Ev.wrote _ => true
  | _ => false

/-- Inside the read loop no write event ever occurs. -/
theorem ioLoop_no_write (lines : List (List Nat)) :
    ∀ budget, ∀ e ∈ (ioLoop lines budget).1, isWriteEv e = false := by
  induction lines with
  | nil =>
    intro budget e he
    cases he
  | cons line rest ih =>
    intro budget e he
    cases hd : ndeserialize line with
    | none =>
      simp [ioLoop, hd] at he
      rcases he with rfl | rfl <;> rfl
    | some content =>
      by_cases hc : content = END_OF_CONTENT
      · simp [ioLoop, hd, hc] at he
        rcases he with rfl | rfl <;> rfl
      · match budget with
        | some 0 =>
          simp [ioLoop, hd, hc] at he
          subst he
          rfl
        | some 1 =>
          simp [ioLoop, hd, hc] at he
          rcases he with rfl | rfl | rfl <;> rfl
        | some (k + 2) =>
          simp [ioLoop, hd, hc] at he
          rcases he with rfl | rfl | he
          · rfl
          · rfl
          · exact ih (some (k + 1)) e he
        | none =>
          simp [ioLoop, hd, hc] at he
          rcases he with rfl | rfl | he
          · rfl
          · rfl
          · exact ih none e he

/-- The lines the read loop yields are exactly the successfully decoded
reads with the sentinel removed, in read order. -/
theorem ioLoop_yields_ordered (lines : List (List Nat)) :
    ∀ budget, yieldsOf (ioLoop lines budget).1 =
      (decodedReadsOf (ioLoop lines budget).1).filter
        (fun content => decide (content ≠ END_OF_CONTENT)) := by
  induction lines with
  | nil => intro budget; rfl
  | cons line rest ih =>
    intro budget
    cases hd : ndeserialize line with
    | none => simp [ioLoop, hd, yieldsOf, decodedReadsOf]
    | some content =>
      by_cases hc : content = END_OF_CONTENT
      · simp [ioLoop, hd, hc, yieldsOf, decodedReadsOf]
      · match budget with
        | some 0 => simp [ioLoop, hd, hc, yieldsOf, decodedReadsOf]
        | some 1 => simp [ioLoop, hd, hc, yieldsOf, decodedReadsOf]
        | some (k + 2) =>
          have ih2 := ih (some (k + 1))
          simp only [ioLoop, hd, hc]
          simp [yieldsOf, decodedReadsOf, hd, hc] at ih2 ⊢
          exact ih2
        | none =>
          have ih2 := ih none
          simp only [ioLoop, hd, hc]
          simp [yieldsOf, decodedReadsOf, hd, hc] at ih2 ⊢
          exact ih2

/-- Claim C5: in every started exchange the trace is the opening of the
connection, then exactly one write of the encoded command, then loop
events among which no further write occurs, so the write strictly
precedes every read; and the yielded lines are exactly the decoded reads
with the sentinel removed, in the order read, with no reordering or
batching. -/
theorem C5_single_write_precedes_ordered_reads (port_lines : List (List Nat))
    (command : List Char) (bs : List Nat) (budget : Option Nat)
    (hb : budget ≠ some 0) (hs : nserialize command = some bs) :
    ∃ evs, (ioEvents port_lines command budget).1 = Ev.opened :: Ev.wrote bs :: evs ∧
      (evs.all fun e => !(isWriteEv e)) = true ∧
      yieldsOf evs = (decodedReadsOf evs).filter
        (fun content => decide (content ≠ END_OF_CONTENT)) := by
  have h1 : ((ioLoop port_lines budget).1.all fun e => !(isWriteEv e)) = true := by
    rw [List.all_eq_true]
    intro x hx
    rw [ioLoop_no_write port_lines budget x hx]
    rfl
  have h2 := ioLoop_yields_ordered port_lines budget
  refine ⟨(ioLoop port_lines budget).1, ?_, h1, h2⟩
  match budget with
  | some 0 => exact absurd rfl hb
  | some (n + 1) => simp [ioEvents, hs]
  | none => simp [ioEvents, hs]

/-- Claim C5 witness: the exchange of command "v" against a device that
answers "1" and then the sentinel writes the encoded command right after
opening, performs no further write, and yields the reads in order with
the sentinel dropped. -/
theorem C5_witness :
    ∃ evs, (ioEvents [[0x31], [0x2E]] ['v'] none).1 = Ev.opened :: Ev.wrote [118, 10] :: evs ∧
      (evs.all fun e => !(isWriteEv e)) = true ∧
      yieldsOf evs = (decodedReadsOf evs).filter
        (fun content => decide (content ≠ END_OF_CONTENT)) :=
  C5_single_write_precedes_ordered_reads [[0x31], [0x2E]] ['v'] [118, 10] none
    (by decide) (by decide)
